import Mathlib

/-!
# Verification of the fylins file-manager core logic

Shallow embedding of the pure core of `src/app.rs` and `src/highlight.rs`
of the fylins repository: image-header parsing, the text/binary
classifier, git porcelain status classification and merging, the
entry filter/sort pipeline, the selection adjustment after delete,
the syntax-highlighting line tokenizer, and the clipboard paste logic.
Bytes are modelled as `Nat` (values < 256), Rust strings as Lean
`String` / `List Char`, and the filesystem as an explicit list of
(path, is-directory) entries.
-/

-- =============================================================================
-- Byte-level helpers (src/app.rs)
-- =============================================================================

/-- `u32::from_le_bytes [b0, b1, b2, b3]`: little-endian 32-bit read. -/
def u32_from_le_bytes (b0 b1 b2 b3 : Nat) : Nat :=
  b0 + b1 * 256 + b2 * 65536 + b3 * 16777216

/-- `u32::abs_diff`: absolute difference of two unsigned values. -/
def u32_abs_diff (a b : Nat) : Nat :=
  max a b - min a b

/-- `parse_bmp_dimensions` from `src/app.rs`: requires at least 26 header
bytes starting with `BM` (0x42 0x4D); width is the little-endian u32 at
offset 18 and the reported height is `height.abs_diff(0)` of the
little-endian u32 at offset 22. -/
def parse_bmp_dimensions (header : List Nat) : Nat × Nat × String :=
  if 26 ≤ header.length ∧ header.take 2 = [0x42, 0x4D] then
    let width := u32_from_le_bytes (header.getD 18 0) (header.getD 19 0)
      (header.getD 20 0) (header.getD 21 0)
    let height := u32_from_le_bytes (header.getD 22 0) (header.getD 23 0)
      (header.getD 24 0) (header.getD 25 0)
    (width, u32_abs_diff height 0, "BMP")
  else
    (0, 0, "BMP")

/-- The signed 32-bit integer denoted by a `u32` bit pattern. -/
def i32_of_u32 (v : Nat) : Int :=
  if v < 2 ^ 31 then (v : Int) else (v : Int) - 2 ^ 32

/-- Modelled from the claim wording for the BMP parser: height is the
unsigned magnitude of the little-endian i32 at offset 22 (for comparison
with `parse_bmp_dimensions`, which is translated from the source). -/
def parse_bmp_dimensions_spec (header : List Nat) : Nat × Nat × String :=
  if 26 ≤ header.length ∧ header.take 2 = [0x42, 0x4D] then
    let width := u32_from_le_bytes (header.getD 18 0) (header.getD 19 0)
      (header.getD 20 0) (header.getD 21 0)
    let height := u32_from_le_bytes (header.getD 22 0) (header.getD 23 0)
      (header.getD 24 0) (header.getD 25 0)
    (width, (i32_of_u32 height).natAbs, "BMP")
  else
    (0, 0, "BMP")

/-- A concrete 26-byte BMP header: `BM`, 16 padding bytes, width 640
(little-endian), stored height −480 (i32, little-endian). -/
def bmpNegHeightHeader : List Nat :=
  [0x42, 0x4D] ++ List.replicate 16 0 ++ [0x80, 0x02, 0, 0] ++ [0x20, 0xFE, 0xFF, 0xFF]

-- =============================================================================
-- Text/binary classifier (src/app.rs, is_text)
-- =============================================================================

/-- The per-byte filter inside `is_text`: `b < 0x09 || (b > 0x0D && b < 0x20 && b != 0x1B)`. -/
def non_text_byte (b : Nat) : Bool :=
  b < 0x09 || (0x0D < b && b < 0x20 && b != 0x1B)

/-- Number of non-text bytes among the first 512 bytes
(`data.iter().take(512).filter(..).count()`). -/
def non_text_count (data : List Nat) : Nat :=
  ((data.take 512).filter non_text_byte).length

/-- The sample size `data.len().min(512)`. -/
def sample_size (data : List Nat) : Nat :=
  min data.length 512

/-- `is_text` from `src/app.rs`: empty data is text; otherwise text iff
`non_text_count * 100 / data.len().min(512) < 5` (integer division). -/
def is_text (data : List Nat) : Bool :=
  if data.isEmpty then
    true
  else
    non_text_count data * 100 / sample_size data < 5

-- =============================================================================
-- Git status classification and merge (src/app.rs)
-- =============================================================================

/-- Git status for a file (enum `GitStatus` in `src/app.rs`). -/
inductive GitStatus where
  | Modified
  | Staged
  | Untracked
  | Ignored
  | Conflict
deriving DecidableEq, Repr

/-- Classification of a two-character porcelain status code in
`get_git_status` (`src/app.rs` lines 1111–1128). `c0` is the first
column (`starts_with`), `c1` the second (`chars().nth(1)` / `ends_with`
on the two-character slice); `none` models the `_ => continue` arm. -/
def classify_status (c0 c1 : Char) : Option GitStatus :=
  if c0 = '?' ∧ c1 = '?' then some GitStatus.Untracked
  else if c0 = '!' ∧ c1 = '!' then some GitStatus.Ignored
  else if (c0 = 'U' ∧ c1 = 'U') ∨ (c0 = 'A' ∧ c1 = 'A') ∨ (c0 = 'D' ∧ c1 = 'D') then
    some GitStatus.Conflict
  else if c0 = 'A' ∨ c0 = 'M' ∨ c0 = 'D' ∨ c0 = 'R' then
    if c1 = ' ' then some GitStatus.Staged else some GitStatus.Modified
  else if c1 = 'M' ∨ c1 = 'D' then some GitStatus.Modified
  else none

/-- Modelled from the claim wording for the porcelain classification
(for comparison with `classify_status`, which is translated from the
source): after the `??`/`!!`/conflict cases, a code in which either
column is one of `A`/`M`/`D`/`R` with a blank second column is Staged,
and any remaining code with a non-blank second column is Modified. -/
def classify_status_spec (c0 c1 : Char) : Option GitStatus :=
  if c0 = '?' ∧ c1 = '?' then some GitStatus.Untracked
  else if c0 = '!' ∧ c1 = '!' then some GitStatus.Ignored
  else if (c0 = 'U' ∧ c1 = 'U') ∨ (c0 = 'A' ∧ c1 = 'A') ∨ (c0 = 'D' ∧ c1 = 'D') then
    some GitStatus.Conflict
  else if (['A', 'M', 'D', 'R'].contains c0 ∨ ['A', 'M', 'D', 'R'].contains c1) ∧ c1 = ' ' then
    some GitStatus.Staged
  else if c1 ≠ ' ' then some GitStatus.Modified
  else none

/-- Amended classification, written from the amended claim: a code whose
first column is `A`/`M`/`D`/`R` is Staged when the second column is
blank and Modified otherwise; a remaining code whose second column is
`M` or `D` is Modified; every other code is skipped. -/
def classify_status_amended (c0 c1 : Char) : Option GitStatus :=
  if c0 = '?' ∧ c1 = '?' then some GitStatus.Untracked
  else if c0 = '!' ∧ c1 = '!' then some GitStatus.Ignored
  else if (c0 = 'U' ∧ c1 = 'U') ∨ (c0 = 'A' ∧ c1 = 'A') ∨ (c0 = 'D' ∧ c1 = 'D') then
    some GitStatus.Conflict
  else if ['A', 'M', 'D', 'R'].contains c0 then
    if c1 = ' ' then some GitStatus.Staged else some GitStatus.Modified
  else if ['M', 'D'].contains c1 then some GitStatus.Modified
  else none

/-- `git_status_priority` from `src/app.rs`. -/
def git_status_priority (status : GitStatus) : Nat :=
  match status with
  | GitStatus.Conflict => 5
  | GitStatus.Modified => 4
  | GitStatus.Staged => 3
  | GitStatus.Untracked => 2
  | GitStatus.Ignored => 1

/-- The keep-higher-severity merge used by `get_git_status` when a
top-level entry already has a status (`and_modify`): the existing status
is replaced only when the new one has strictly higher priority. -/
def merge_status (existing new : GitStatus) : GitStatus :=
  if git_status_priority new > git_status_priority existing then new else existing

/-- Folding a list of per-file statuses for one top-level name, as the
hash-map `entry(..).and_modify(..).or_insert(..)` does: the first status
is inserted, later ones merged in order. -/
def fold_statuses (l : List GitStatus) : Option GitStatus :=
  match l with
  | [] => none
  | x :: xs => some (xs.foldl merge_status x)

-- =============================================================================
-- Entries, filtering, selection (src/app.rs)
-- =============================================================================

/-- Application mode (enum `Mode` in `src/app.rs`). -/
inductive Mode where
  | Normal
  | Search
  | Rename
  | ConfirmDelete
  | Path
  | NewFile
  | NewFolder
  | Help
deriving DecidableEq, Repr

/-- A file or directory entry (struct `Entry` in `src/app.rs`); the
modification time is modelled as an optional tick count. -/
structure Entry where
  name : String
  name_lower : String
  is_dir : Bool
  size : Nat
  modified : Option Nat
  is_hidden : Bool
  readonly : Bool
  git_status : Option GitStatus
deriving DecidableEq, Repr

/-- Substring containment, as Rust `str::contains` on the character
sequence: `needle` occurs contiguously inside `hay`. -/
def has_substring (hay needle : List Char) : Bool :=
  needle.isPrefixOf hay ||
    match hay with
    | [] => false
    | _ :: t => has_substring t needle

/-- The slice of `App` state that the filter/selection logic reads and
writes (`all_entries`, `filtered_indices`, the `ListState` selection,
`mode`, `input`, `show_hidden`). -/
structure AppState where
  all_entries : List Entry
  filtered_indices : List Nat
  selected : Option Nat
  mode : Mode
  input : List Char
  show_hidden : Bool
deriving Repr

/-- The per-entry predicate inside `apply_filter`: `..` always passes;
hidden entries need `show_hidden`; in Search mode with a non-empty
query the pre-lowercased name must contain the lowercased query. -/
def filter_pred (mode : Mode) (show_hidden : Bool) (query : List Char) (e : Entry) : Bool :=
  if e.name = ".." then true
  else if !show_hidden && e.is_hidden then false
  else if mode = Mode.Search && !query.isEmpty then has_substring e.name_lower.toList query
  else true

/-- `apply_filter` from `src/app.rs`: recompute `filtered_indices` by
enumerating `all_entries` and keeping indices whose entry passes
`filter_pred`, then reset the selection if it is out of bounds
(to `Some(0)` when the new list is non-empty, `None` when empty). -/
def apply_filter (app : AppState) : AppState :=
  let query : List Char := app.input.map Char.toLower
  let idxs : List Nat :=
    ((app.all_entries.enum).filter fun p => filter_pred app.mode app.show_hidden query p.2).map
      Prod.fst
  let sel : Option Nat :=
    match app.selected with
    | some s =>
      if s ≥ idxs.length then (if idxs.isEmpty then none else some 0) else some s
    | none => if !idxs.isEmpty then some 0 else none
  { app with filtered_indices := idxs, selected := sel }

/-- The selection adjustment at the end of `confirm_delete`
(`src/app.rs` lines 937–941), run after the successful delete's
`refresh`: step the selection back by one when it is out of range and
non-zero. -/
def confirm_delete_adjust (app : AppState) : AppState :=
  match app.selected with
  | some s =>
    if s ≥ app.filtered_indices.length ∧ s > 0 then { app with selected := some (s - 1) }
    else app
  | none => app

/-- The observable selection pipeline of a successful delete: `refresh`
rescans the directory (yielding `newEntries`) and runs `apply_filter`,
then `confirm_delete` applies its own adjustment. -/
def delete_refresh_select (app : AppState) (newEntries : List Entry) : AppState :=
  confirm_delete_adjust (apply_filter { app with all_entries := newEntries })

-- =============================================================================
-- Directory scan sorting (src/app.rs, refresh)
-- =============================================================================

/-- Character-wise lowercasing, modelling Rust `str::to_lowercase` on
the character sequence. -/
def str_lower (s : String) : String :=
  String.mk (s.toList.map Char.toLower)

/-- The comparator passed to `entries.sort_by` in `refresh`
(`src/app.rs` lines 201–205): directories sort before files, ties by
`name_lower`. -/
def entry_cmp (a b : Entry) : Ordering :=
  match a.is_dir, b.is_dir with
  | true, false => Ordering.lt
  | false, true => Ordering.gt
  | _, _ =>
    if a.name_lower.data < b.name_lower.data then Ordering.lt
    else if a.name_lower.data = b.name_lower.data then Ordering.eq
    else Ordering.gt

/-- The boolean "does not compare greater" relation induced by
`entry_cmp`, under which a comparison sort orders the list. -/
def entry_le (a b : Entry) : Bool :=
  !(entry_cmp a b == Ordering.gt)

/-- Insert into a list that is ordered by `entry_le`, before the first
element the inserted one compares `entry_le` to (so equal-ranked
entries keep their original relative order, as Rust's stable sort). -/
def insert_entry (x : Entry) : List Entry → List Entry
  | [] => [x]
  | y :: ys => if entry_le x y then x :: y :: ys else y :: insert_entry x ys

/-- The sort performed on the scanned entries in `refresh`: a stable
comparison sort by `entry_cmp`, as Rust `sort_by`. -/
def sort_entries (l : List Entry) : List Entry :=
  l.foldr insert_entry []

/-- Convenience constructor for entries in concrete examples, with the
pre-computed lowercase name set exactly as `refresh` does. -/
def mkEntry (name : String) (is_dir : Bool) (is_hidden : Bool := false) : Entry :=
  { name := name
    name_lower := str_lower name
    is_dir := is_dir
    size := 0
    modified := none
    is_hidden := is_hidden
    readonly := false
    git_status := none }

-- =============================================================================
-- Syntax highlighting (src/highlight.rs)
-- =============================================================================

/-- The double-quote character. -/
def dquote : Char := Char.ofNat 34

/-- The single-quote character. -/
def squote : Char := Char.ofNat 39

/-- The style attached to a produced span, abstracting the ratatui
styles used in `src/highlight.rs`: `raw` (unstyled), `comment`
(dark gray), `strLit` (green), `keyword` (magenta bold), `tipe` (cyan),
`number` (yellow). -/
inductive SpanStyle where
  | raw
  | comment
  | strLit
  | keyword
  | tipe
  | number
deriving DecidableEq, Repr

/-- A produced span: a piece of the line plus its style. -/
structure Spn where
  text : String
  style : SpanStyle
deriving DecidableEq, Repr

/-- `get_keywords` from `src/highlight.rs`. -/
def get_keywords (ext : String) : List String :=
  if ext = "rs" then
    ["fn", "let", "mut", "const", "pub", "use", "mod", "struct", "enum", "impl", "trait",
     "where", "for", "if", "else", "match", "loop", "while", "return", "break", "continue",
     "async", "await", "move", "ref", "self", "Self", "super", "crate", "dyn", "static",
     "type", "unsafe", "extern"]
  else if ext = "py" then
    ["def", "class", "if", "elif", "else", "for", "while", "return", "import", "from", "as",
     "try", "except", "finally", "with", "yield", "lambda", "pass", "break", "continue",
     "raise", "assert", "global", "nonlocal", "async", "await"]
  else if ext = "js" ∨ ext = "ts" ∨ ext = "jsx" ∨ ext = "tsx" then
    ["function", "const", "let", "var", "if", "else", "for", "while", "return", "class",
     "extends", "import", "export", "from", "default", "async", "await", "try", "catch",
     "finally", "throw", "new", "this", "super", "typeof", "instanceof"]
  else if ext = "go" then
    ["func", "var", "const", "type", "struct", "interface", "if", "else", "for", "range",
     "return", "break", "continue", "switch", "case", "default", "go", "chan", "select",
     "defer", "package", "import", "map"]
  else if ext = "c" ∨ ext = "h" ∨ ext = "cpp" ∨ ext = "hpp" ∨ ext = "cc" then
    ["if", "else", "for", "while", "do", "switch", "case", "default", "return", "break",
     "continue", "struct", "union", "enum", "typedef", "sizeof", "static", "const", "extern",
     "void", "class", "public", "private", "protected", "virtual", "template", "namespace",
     "using", "new", "delete"]
  else if ext = "java" then
    ["class", "interface", "extends", "implements", "if", "else", "for", "while", "do",
     "switch", "case", "default", "return", "break", "continue", "new", "this", "super",
     "public", "private", "protected", "static", "final", "abstract", "void", "import",
     "package", "try", "catch", "finally", "throw", "throws"]
  else if ext = "sh" ∨ ext = "bash" then
    ["if", "then", "else", "elif", "fi", "for", "while", "do", "done", "case", "esac",
     "function", "return", "exit", "export", "local", "readonly"]
  else []

/-- `get_types` from `src/highlight.rs`. -/
def get_types (ext : String) : List String :=
  if ext = "rs" then
    ["i8", "i16", "i32", "i64", "i128", "isize", "u8", "u16", "u32", "u64", "u128", "usize",
     "f32", "f64", "bool", "char", "str", "String", "Vec", "Option", "Result", "Box", "Rc",
     "Arc", "HashMap", "HashSet", "PathBuf"]
  else if ext = "py" then
    ["int", "float", "str", "bool", "list", "dict", "tuple", "set", "None", "True", "False"]
  else if ext = "js" ∨ ext = "ts" ∨ ext = "jsx" ∨ ext = "tsx" then
    ["string", "number", "boolean", "null", "undefined", "true", "false", "Array", "Object",
     "Promise", "void", "any", "never"]
  else if ext = "go" then
    ["int", "int8", "int16", "int32", "int64", "uint", "uint8", "uint16", "uint32", "uint64",
     "float32", "float64", "bool", "string", "byte", "rune", "error", "true", "false", "nil"]
  else if ext = "c" ∨ ext = "h" ∨ ext = "cpp" ∨ ext = "hpp" ∨ ext = "cc" then
    ["int", "char", "float", "double", "long", "short", "unsigned", "signed", "bool", "true",
     "false", "NULL", "nullptr", "auto"]
  else if ext = "java" then
    ["int", "long", "short", "byte", "float", "double", "boolean", "char", "String", "true",
     "false", "null", "void"]
  else []

/-- `colorize_word` from `src/highlight.rs`: keyword, type, all-digit
number, or raw. -/
def colorize_word (word : String) (keywords types : List String) : Spn :=
  if keywords.contains word then { text := word, style := SpanStyle.keyword }
  else if types.contains word then { text := word, style := SpanStyle.tipe }
  else if word.toList.all Char.isDigit then { text := word, style := SpanStyle.number }
  else { text := word, style := SpanStyle.raw }

/-- The extensions for which `#` starts a line comment
(`matches!(ext, "py" | "sh" | "bash" | "yaml" | "yml" | "toml")`). -/
def hash_comment_exts : List String :=
  ["py", "sh", "bash", "yaml", "yml", "toml"]

/-- Loop state of `highlight_line`: spans emitted so far, the pending
word and other accumulators, and the string-literal state. -/
structure HLState where
  spans : List Spn
  word : List Char
  other : List Char
  inString : Bool
  stringChar : Char
deriving Repr

/-- Flush the pending word (through `colorize_word`) and the pending
other text (raw), in that order, as the comment/string branches do. -/
def hl_flush (keywords types : List String) (st : HLState) : HLState :=
  { st with
    spans := st.spans ++
      (if st.word.isEmpty then [] else [colorize_word (String.mk st.word) keywords types]) ++
      (if st.other.isEmpty then [] else [{ text := String.mk st.other, style := SpanStyle.raw }])
    word := []
    other := [] }

/-- The `while` loop of `highlight_line` (`src/highlight.rs` lines
211–297), processing the remaining characters against the loop state. -/
def hl_go (keywords types : List String) (ext : String) :
    List Char → HLState → List Spn
  | [], st =>
    st.spans ++
      (if st.word.isEmpty then [] else [colorize_word (String.mk st.word) keywords types]) ++
      (if st.other.isEmpty then []
       else if st.inString then [{ text := String.mk st.other, style := SpanStyle.strLit }]
       else [{ text := String.mk st.other, style := SpanStyle.raw }])
  | c :: rest, st =>
    if !st.inString ∧ c = '/' ∧ rest.head? = some '/' then
      (hl_flush keywords types st).spans ++
        [{ text := String.mk (c :: rest), style := SpanStyle.comment }]
    else if !st.inString ∧ c = '#' ∧ hash_comment_exts.contains ext then
      (hl_flush keywords types st).spans ++
        [{ text := String.mk (c :: rest), style := SpanStyle.comment }]
    else if c = dquote ∨ c = squote then
      if !st.inString then
        hl_go keywords types ext rest
          { hl_flush keywords types st with inString := true, stringChar := c, other := [c] }
      else if c = st.stringChar then
        hl_go keywords types ext rest
          { st with
            spans := st.spans ++
              [{ text := String.mk (st.other ++ [c]), style := SpanStyle.strLit }]
            other := []
            inString := false }
      else
        hl_go keywords types ext rest { st with other := st.other ++ [c] }
    else if st.inString then
      hl_go keywords types ext rest { st with other := st.other ++ [c] }
    else if c.isAlphanum ∨ c = '_' then
      hl_go keywords types ext rest
        { st with
          spans := st.spans ++
            (if st.other.isEmpty then []
             else [{ text := String.mk st.other, style := SpanStyle.raw }])
          other := []
          word := st.word ++ [c] }
    else
      hl_go keywords types ext rest
        { st with
          spans := st.spans ++
            (if st.word.isEmpty then []
             else [colorize_word (String.mk st.word) keywords types])
          word := []
          other := st.other ++ [c] }

/-- The initial loop state of `highlight_line`. -/
def hl_init : HLState :=
  { spans := [], word := [], other := [], inString := false, stringChar := dquote }

/-- `highlight_line` from `src/highlight.rs`: tokenize one line into
styled spans. -/
def highlight_line (line : String) (keywords types : List String) (ext : String) : List Spn :=
  hl_go keywords types ext line.toList hl_init

/-- The concatenation of the texts of a span list, as a character list. -/
def spans_chars (spans : List Spn) : List Char :=
  (spans.map fun sp => sp.text.toList).flatten

-- =============================================================================
-- Clipboard paste (src/app.rs, paste_file)
-- =============================================================================

/-- A filesystem entry: an absolute path (as components) and whether it
is a directory. -/
structure FSEntry where
  path : List String
  isDir : Bool
deriving DecidableEq, Repr

/-- The filesystem model: the list of existing entries. -/
abbrev FS := List FSEntry

/-- `Path::exists`. -/
def fs_exists (fs : FS) (p : List String) : Bool :=
  fs.any fun e => e.path == p

/-- `Path::is_dir`. -/
def fs_is_dir (fs : FS) (p : List String) : Bool :=
  fs.any fun e => e.path == p && e.isDir

/-- `Path::parent`: every component but the last; `None` at the root. -/
def path_parent (p : List String) : Option (List String) :=
  match p with
  | [] => none
  | _ => some p.dropLast

/-- `Path::file_name`: the last component, `None` for paths ending in
`..` or for the empty path. -/
def path_file_name (p : List String) : Option String :=
  match p.getLast? with
  | some s => if s = ".." then none else some s
  | none => none

/-- Positions of every `.` occurring past the first character of a file
name (the splittable dots for `file_stem` / `extension`). -/
def dot_positions (name : List Char) : List Nat :=
  (List.range name.length).filter fun i => 1 ≤ i ∧ name.getD i ' ' = '.'

/-- `Path::file_stem` and `Path::extension` on a file name: split at the
final embedded `.`; a name with no such dot has no extension. -/
def split_stem_ext (name : List Char) : List Char × Option (List Char) :=
  match (dot_positions name).getLast? with
  | none => (name, none)
  | some i => (name.take i, some (name.drop (i + 1)))

/-- Relocate a path under `src` to the corresponding path under `dst`. -/
def fs_remap (src dst p : List String) : List String :=
  if src.isPrefixOf p then dst ++ p.drop src.length else p

/-- `fs::rename`: move the subtree at `src` to `dst`; fails when the
source does not exist. -/
def fs_rename (fs : FS) (src dst : List String) : Except Unit FS :=
  if fs_exists fs src then
    Except.ok (fs.map fun e => { e with path := fs_remap src dst e.path })
  else Except.error ()

/-- `fs::copy`: copy the file at `src` to `dst`; fails when the source
is missing or is a directory. -/
def fs_copy_file (fs : FS) (src dst : List String) : Except Unit FS :=
  if fs_exists fs src ∧ ¬fs_is_dir fs src then
    Except.ok (fs ++ [{ path := dst, isDir := false }])
  else Except.error ()

/-- `copy_dir_recursive` from `src/app.rs`: `fs::create_dir(dst)` fails
when `dst` exists; otherwise the subtree under `src` is duplicated
under `dst`. -/
def copy_dir_recursive (fs : FS) (src dst : List String) : Except Unit FS :=
  if fs_exists fs dst then Except.error ()
  else
    Except.ok (fs ++ (fs.filter fun e => src.isPrefixOf e.path).map
      fun e => { e with path := dst ++ e.path.drop src.length })

/-- The name-conflict loop of `paste_file`: try `stem_counter ext` for
`counter = 1, 2, ...` until a free name is found. The fuel
`fs.length + 1` given at the call site always suffices, since the
candidate paths are pairwise distinct. -/
def find_dest (fs : FS) (dir : List String) (stem ext : String) :
    Nat → Nat → List String
  | 0, counter => dir ++ [stem ++ "_" ++ toString counter ++ ext]
  | fuel + 1, counter =>
    let cand := dir ++ [stem ++ "_" ++ toString counter ++ ext]
    if fs_exists fs cand then find_dest fs dir stem ext fuel (counter + 1) else cand

/-- The clipboard state (struct `FileClipboard` in `src/app.rs`). -/
structure FileClipboard where
  path : List String
  isCut : Bool
deriving DecidableEq, Repr

/-- The slice of `App` state that `paste_file` reads and writes. -/
structure PasteState where
  currentDir : List String
  clipboard : Option FileClipboard
  message : Option String
deriving DecidableEq, Repr

/-- `paste_file` from `src/app.rs` (lines 567–654), acting on the
application state and the filesystem model. -/
def paste_file (app : PasteState) (fs : FS) : PasteState × FS :=
  match app.clipboard with
  | none => ({ app with message := some "Nothing to paste" }, fs)
  | some clip =>
    if !fs_exists fs clip.path then
      ({ app with message := some "Source no longer exists", clipboard := none }, fs)
    else if clip.isCut ∧ path_parent clip.path = some app.currentDir then
      ({ app with message := some "Item is already in this directory" }, fs)
    else
      match path_file_name clip.path with
      | none => ({ app with message := some "Invalid source path" }, fs)
      | some fname =>
        let dest0 := app.currentDir ++ [fname]
        if fs_is_dir fs clip.path ∧ clip.path.isPrefixOf dest0 then
          ({ app with message := some "Cannot copy a directory into itself" }, fs)
        else
          let se := split_stem_ext fname.toList
          let stem := String.mk se.1
          let ext :=
            match se.2 with
            | some e => "." ++ String.mk e
            | none => ""
          let dest :=
            if fs_exists fs dest0 then find_dest fs app.currentDir stem ext (fs.length + 1) 1
            else dest0
          let result :=
            if clip.isCut then fs_rename fs clip.path dest
            else if fs_is_dir fs clip.path then copy_dir_recursive fs clip.path dest
            else fs_copy_file fs clip.path dest
          match result with
          | Except.ok fs' =>
            ({ app with
                message := some ((if clip.isCut then "Moved: " else "Pasted: ") ++
                  (dest.getLast?.getD ""))
                clipboard := if clip.isCut then none else app.clipboard }, fs')
          | Except.error _ => ({ app with message := some "Paste failed" }, fs)

-- =============================================================================
-- Concrete states used by counterexamples and witnesses
-- =============================================================================

/-- A state with three visible entries and the last one selected, as
just before a delete of the third entry. -/
def c2App : AppState :=
  { all_entries := [mkEntry "aa" false, mkEntry "bb" false, mkEntry "cc" false]
    filtered_indices := [0, 1, 2]
    selected := some 2
    mode := Mode.ConfirmDelete
    input := []
    show_hidden := true }

/-- The rescanned directory contents after deleting the third entry. -/
def c2NewEntries : List Entry :=
  [mkEntry "aa" false, mkEntry "bb" false]

/-- A filter example: parent entry, a hidden file and a matching file,
in Search mode with query `ME` and hidden files not shown. -/
def c7App : AppState :=
  { all_entries := [mkEntry ".." true, mkEntry ".hidden" false true, mkEntry "readme.md" false]
    filtered_indices := []
    selected := none
    mode := Mode.Search
    input := ['M', 'E']
    show_hidden := false }

/-- The sort example from the spec: `zebra.txt`, `alpha` (a directory),
`beta.txt`. -/
def c8Example : List Entry :=
  [mkEntry "zebra.txt" false, mkEntry "alpha" true, mkEntry "beta.txt" false]

/-- A copy clipboard whose source path no longer exists. -/
def c10Clip : FileClipboard :=
  { path := ["gone", "x.txt"], isCut := false }

/-- A paste state holding `c10Clip`. -/
def c10App : PasteState :=
  { currentDir := ["home"], clipboard := some c10Clip, message := none }

-- =============================================================================
-- Theorems
-- =============================================================================

/-- C1: the spec says the BMP height is the unsigned magnitude of the
little-endian i32 at offset 22, and the `height.abs_diff(0)` in the code
shows that is the intent; but `abs_diff(0)` on a `u32` is the identity,
so a negatively stored (top-down) height comes out as the raw two's
complement value instead of its magnitude: on a valid header with
stored height −480 the code reports 4294966816 where the spec demands
480. Width and the validity check behave as claimed. -/
theorem C1_bmp_negative_height_bug :
    parse_bmp_dimensions bmpNegHeightHeader = (640, 4294966816, "BMP") ∧
    parse_bmp_dimensions_spec bmpNegHeightHeader = (640, 480, "BMP") := by
  constructor <;> rfl

/-- C5: `is_text` returns true exactly when the buffer is empty or the
count of non-text bytes in the first `min(length, 512)` bytes is
strictly below 5% of that sample size (the integer division
`count * 100 / size < 5` is equivalent to `100 * count < 5 * size`). -/
theorem C5_is_text_iff (data : List Nat) :
    is_text data = true ↔
      data = [] ∨ 100 * non_text_count data < 5 * sample_size data := by
  by_cases h : data = []
  · subst h
    simp [is_text]
  · have hlen : 0 < data.length := List.length_pos.mpr h
    have hpos : 0 < sample_size data := by
      simp only [sample_size]
      omega
    have hne : data.isEmpty = false := by
      simpa [List.isEmpty_iff] using h
    simp only [is_text, hne, Bool.false_eq_true, if_false, decide_eq_true_eq, h, false_or]
    rw [Nat.div_lt_iff_lt_mul hpos]
    omega

/-- C2: the claim that an out-of-range non-zero previous selection steps
back by one after a delete is false: `apply_filter` (run inside
`refresh`) has already reset the out-of-range selection to 0, so the
step-back branch in `confirm_delete` never fires. Concretely, deleting
the third of three visible entries while it is selected (position 2)
leaves the selection at 0, not at 1. -/
theorem C2_delete_selection_counterexample :
    c2App.selected = some 2 ∧
    2 ≥ (delete_refresh_select c2App c2NewEntries).filtered_indices.length ∧
    (2 : Nat) ≠ 0 ∧
    (delete_refresh_select c2App c2NewEntries).selected ≠ some 1 ∧
    (delete_refresh_select c2App c2NewEntries).selected = some 0 := by
  refine ⟨rfl, ?_, by decide, ?_, ?_⟩ <;> decide

/-- C2 (amended): after a successful delete, if the previously selected
position is out of range against the rescanned visible list, the
selection is reset to the first entry (0) when the new visible list is
non-empty and cleared when it is empty; the step-back branch in
`confirm_delete` is unreachable because `apply_filter` has already
reset the selection. -/
theorem C2_delete_selection_amended (app : AppState) (newEntries : List Entry) (p : Nat)
    (hsel : app.selected = some p)
    (hout : p ≥ (apply_filter { app with all_entries := newEntries }).filtered_indices.length) :
    (delete_refresh_select app newEntries).selected =
      (if (apply_filter { app with all_entries := newEntries }).filtered_indices.isEmpty
       then none else some 0) := by
  have key : (apply_filter { app with all_entries := newEntries }).selected =
      (if (apply_filter { app with all_entries := newEntries }).filtered_indices.isEmpty
       then none else some 0) := by
    simp only [apply_filter, hsel, ge_iff_le] at hout ⊢
    rw [if_pos hout]
  by_cases hemp :
      (apply_filter { app with all_entries := newEntries }).filtered_indices.isEmpty
  · rw [hemp, if_pos rfl] at key
    unfold delete_refresh_select confirm_delete_adjust
    rw [key, hemp, if_pos rfl]
    exact key
  · rw [if_neg (by simpa using hemp)] at key
    unfold delete_refresh_select confirm_delete_adjust
    rw [key]
    simp only [ge_iff_le, Nat.lt_irrefl, gt_iff_lt, and_false, ite_false, if_neg,
      not_false_iff, Nat.not_lt_zero, false_and]
    rw [if_neg (by simpa [List.isEmpty_iff] using hemp)]
    exact key

/-- C2 witness: the amended theorem applied to the concrete delete of
the third of three visible entries. -/
theorem C2_delete_selection_amended_witness :
    (delete_refresh_select c2App c2NewEntries).selected =
      (if (apply_filter { c2App with all_entries := c2NewEntries }).filtered_indices.isEmpty
       then none else some 0) :=
  C2_delete_selection_amended c2App c2NewEntries 2 rfl (by decide)

/-- C3: the claimed catch-all "otherwise (a non-blank second column)
maps to Modified" is false: for the code `" A"` (blank first column,
`A` in the second) the claimed mapping gives Modified, but the code's
final guard only accepts a second column of `M` or `D` and skips the
line entirely (`_ => continue`). -/
theorem C3_git_code_counterexample :
    classify_status_spec ' ' 'A' = some GitStatus.Modified ∧
    classify_status ' ' 'A' = none := by
  constructor <;> rfl

/-- C3 (amended): `??`→Untracked, `!!`→Ignored, `UU`/`AA`/`DD`→Conflict;
a code whose first column is one of `A`/`M`/`D`/`R` maps to Staged when
the second column is blank and to Modified otherwise; a remaining code
whose second column is `M` or `D` maps to Modified; every other code
receives no classification. -/
theorem C3_git_code_amended (c0 c1 : Char) :
    classify_status c0 c1 = classify_status_amended c0 c1 := by
  unfold classify_status classify_status_amended
  have h0 : (['A', 'M', 'D', 'R'].contains c0 = true) ↔
      (c0 = 'A' ∨ c0 = 'M' ∨ c0 = 'D' ∨ c0 = 'R') := by simp
  have h1 : (['M', 'D'].contains c1 = true) ↔ (c1 = 'M' ∨ c1 = 'D') := by simp
  split_ifs <;> simp_all

/-- `merge_status` always returns one of its two arguments. -/
theorem merge_status_mem_pair (a b : GitStatus) :
    merge_status a b = a ∨ merge_status a b = b := by
  cases a <;> cases b <;> simp [merge_status, git_status_priority]

/-- The merge result is at least as severe as the left argument. -/
theorem prio_le_merge_left (a b : GitStatus) :
    git_status_priority a ≤ git_status_priority (merge_status a b) := by
  cases a <;> cases b <;> simp [merge_status, git_status_priority]

/-- The merge result is at least as severe as the right argument. -/
theorem prio_le_merge_right (a b : GitStatus) :
    git_status_priority b ≤ git_status_priority (merge_status a b) := by
  cases a <;> cases b <;> simp [merge_status, git_status_priority]

/-- `git_status_priority` is injective. -/
theorem git_status_priority_inj (a b : GitStatus)
    (h : git_status_priority a = git_status_priority b) : a = b := by
  cases a <;> cases b <;> simp_all [git_status_priority]

/-- Folding `merge_status` over a list yields an element of the list
(including the start value). -/
theorem foldl_merge_status_mem (xs : List GitStatus) (a : GitStatus) :
    xs.foldl merge_status a ∈ a :: xs := by
  induction xs generalizing a with
  | nil => simp
  | cons x xs ih =>
    simp only [List.foldl_cons]
    rcases List.mem_cons.mp (ih (merge_status a x)) with h | h
    · rw [h]
      rcases merge_status_mem_pair a x with h' | h' <;> simp [h']
    · simp [h]

/-- Folding `merge_status` over a list dominates every element of the
list (including the start value) in priority. -/
theorem foldl_merge_status_ge (xs : List GitStatus) (a : GitStatus) :
    ∀ y ∈ a :: xs, git_status_priority y ≤ git_status_priority (xs.foldl merge_status a) := by
  induction xs generalizing a with
  | nil =>
    intro y hy
    rcases List.mem_cons.mp hy with rfl | h
    · simp
    · simp at h
  | cons x xs ih =>
    intro y hy
    simp only [List.foldl_cons]
    have hbase := ih (merge_status a x)
    rcases List.mem_cons.mp hy with rfl | hy'
    · exact le_trans (prio_le_merge_left y x) (hbase _ (List.mem_cons_self _ _))
    · rcases List.mem_cons.mp hy' with rfl | hy'' 
      · exact le_trans (prio_le_merge_right a y) (hbase _ (List.mem_cons_self _ _))
      · exact hbase y (List.mem_cons_of_mem _ hy'')

/-- C6: the keep-higher-severity merge is idempotent and commutative,
and folding any non-empty list of statuses for one top-level name
yields, irrespective of order (i.e. for every permutation), the unique
element of maximal severity under
Conflict > Modified > Staged > Untracked > Ignored. -/
theorem C6_merge_fold_order_independent :
    (∀ a, merge_status a a = a) ∧
    (∀ a b, merge_status a b = merge_status b a) ∧
    (∀ (l l' : List GitStatus), l ≠ [] → l.Perm l' →
      ∃ m, fold_statuses l = some m ∧ fold_statuses l' = some m ∧ m ∈ l ∧
        (∀ y ∈ l, git_status_priority y ≤ git_status_priority m) ∧
        (∀ z ∈ l, (∀ y ∈ l, git_status_priority y ≤ git_status_priority z) → z = m)) := by
  refine ⟨fun a => by cases a <;> rfl, fun a b => by cases a <;> cases b <;> rfl, ?_⟩
  intro l l' hne hperm
  obtain ⟨x, xs, rfl⟩ := List.exists_cons_of_ne_nil hne
  have hne' : l' ≠ [] := by
    intro h
    subst h
    simpa using hperm.length_eq
  obtain ⟨y, ys, rfl⟩ := List.exists_cons_of_ne_nil hne'
  have hm_mem : xs.foldl merge_status x ∈ x :: xs := foldl_merge_status_mem xs x
  have hm_ge := foldl_merge_status_ge xs x
  have hm'_mem : ys.foldl merge_status y ∈ y :: ys := foldl_merge_status_mem ys y
  have hm'_ge := foldl_merge_status_ge ys y
  have hmm' : xs.foldl merge_status x = ys.foldl merge_status y := by
    apply git_status_priority_inj
    apply le_antisymm
    · exact hm'_ge _ (hperm.subset hm_mem)
    · exact hm_ge _ (hperm.symm.subset hm'_mem)
  refine ⟨xs.foldl merge_status x, rfl, ?_, hm_mem, hm_ge, ?_⟩
  · simpa [fold_statuses] using hmm'.symm
  · intro z hz hzge
    apply git_status_priority_inj
    exact le_antisymm (hm_ge z hz) (hzge _ hm_mem)

/-- C6 witness: the fold of `[Staged, Conflict]` and of its permutation
`[Conflict, Staged]` is the unique maximum, `Conflict`. -/
theorem C6_merge_fold_witness :
    ∃ m, fold_statuses [GitStatus.Staged, GitStatus.Conflict] = some m ∧
      fold_statuses [GitStatus.Conflict, GitStatus.Staged] = some m ∧
      m ∈ [GitStatus.Staged, GitStatus.Conflict] ∧
      (∀ y ∈ [GitStatus.Staged, GitStatus.Conflict],
        git_status_priority y ≤ git_status_priority m) ∧
      (∀ z ∈ [GitStatus.Staged, GitStatus.Conflict],
        (∀ y ∈ [GitStatus.Staged, GitStatus.Conflict],
          git_status_priority y ≤ git_status_priority z) → z = m) :=
  C6_merge_fold_order_independent.2.2
    [GitStatus.Staged, GitStatus.Conflict] [GitStatus.Conflict, GitStatus.Staged]
    (by decide) (List.Perm.swap _ _ _)

/-- `filter_pred` agrees with the spec's predicate: `..` always passes;
otherwise the entry must be non-hidden or `show_hidden` set, and, in
Search mode with a non-empty query, its lowercase name must contain the
lowercase query. -/
theorem filter_pred_iff (mode : Mode) (sh : Bool) (input : List Char) (e : Entry)
    (hl : e.name_lower = str_lower e.name) :
    filter_pred mode sh (input.map Char.toLower) e = true ↔
      (e.name = ".." ∨
        ((e.is_hidden = false ∨ sh = true) ∧
          (mode = Mode.Search ∧ input ≠ [] →
            has_substring (str_lower e.name).toList (input.map Char.toLower) = true))) := by
  unfold filter_pred
  rw [← hl]
  rcases Bool.eq_false_or_eq_true e.is_hidden with hh | hh <;>
    rcases Bool.eq_false_or_eq_true sh with hs | hs <;>
    by_cases h1 : e.name = ".." <;>
    by_cases hm : mode = Mode.Search <;>
    by_cases hi : input = [] <;>
    simp_all [List.map_eq_nil_iff]

/-- C7: the visible index list produced by `apply_filter` is strictly
increasing over the full entry list, and an index is included exactly
when it addresses an entry that is `..`, or is non-hidden (or hidden
files are shown) and, in Search mode with a non-empty query, has a
lowercase name containing the lowercase query as a substring. -/
theorem C7_filter_subsequence (app : AppState)
    (hlow : ∀ e ∈ app.all_entries, e.name_lower = str_lower e.name) :
    List.Pairwise (· < ·) (apply_filter app).filtered_indices ∧
    (∀ i : Nat, i ∈ (apply_filter app).filtered_indices ↔
      ∃ e, app.all_entries[i]? = some e ∧
        (e.name = ".." ∨
          ((e.is_hidden = false ∨ app.show_hidden = true) ∧
            (app.mode = Mode.Search ∧ app.input ≠ [] →
              has_substring (str_lower e.name).toList (app.input.map Char.toLower) = true)))) := by
  constructor
  · simp only [apply_filter]
    have h1 : List.Pairwise (fun a b : Nat × Entry => a.1 < b.1) app.all_entries.enum := by
      have h := List.pairwise_lt_range app.all_entries.length
      rw [← List.enum_map_fst] at h
      exact List.pairwise_map.mp h
    exact List.pairwise_map.mpr (List.Pairwise.sublist (List.filter_sublist _) h1)
  · intro i
    simp only [apply_filter, List.mem_map, List.mem_filter]
    constructor
    · rintro ⟨⟨j, e⟩, ⟨hmem, hpred⟩, rfl⟩
      have hget : app.all_entries[j]? = some e := List.mk_mem_enum_iff_getElem?.mp hmem
      have hmem' : e ∈ app.all_entries := List.getElem?_mem hget
      exact ⟨e, hget, (filter_pred_iff _ _ _ _ (hlow e hmem')).mp hpred⟩
    · rintro ⟨e, hget, hp⟩
      have hmem' : e ∈ app.all_entries := List.getElem?_mem hget
      exact ⟨(i, e), ⟨List.mk_mem_enum_iff_getElem?.mpr hget,
        (filter_pred_iff _ _ _ _ (hlow e hmem')).mpr hp⟩, rfl⟩

/-- C7 witness: with entries `..`, `.hidden`, `readme.md`, hidden files
off, Search mode and query `ME`, index 2 (the matching `readme.md`) is
in the visible list. -/
theorem C7_filter_subsequence_witness :
    2 ∈ (apply_filter c7App).filtered_indices :=
  ((C7_filter_subsequence c7App (by decide)).2 2).mpr
    ⟨mkEntry "readme.md" false, by decide, Or.inr ⟨Or.inl (by decide), fun _ => by decide⟩⟩

/-- `entry_le` holds exactly when the left entry is a directory and the
right is not, or both have the same kind and the lowercase names are in
(non-strict) order. -/
theorem entry_le_iff (a b : Entry) :
    entry_le a b = true ↔
      (a.is_dir = true ∧ b.is_dir = false) ∨
        (a.is_dir = b.is_dir ∧ a.name_lower ≤ b.name_lower) := by
  have hba : ¬a.name_lower.data < b.name_lower.data → a.name_lower.data ≠ b.name_lower.data →
      b.name_lower < a.name_lower := fun h1 h2 =>
    String.lt_iff_toList_lt.mpr (lt_of_le_of_ne (not_lt.mp h1) fun h => h2 h.symm)
  unfold entry_le entry_cmp
  rcases Bool.eq_false_or_eq_true a.is_dir with ha | ha <;>
    rcases Bool.eq_false_or_eq_true b.is_dir with hb | hb <;>
    rw [ha, hb]
  · split_ifs with h1 h2
    · exact iff_of_true rfl (Or.inr ⟨rfl, le_of_lt (String.lt_iff_toList_lt.mpr h1)⟩)
    · exact iff_of_true rfl (Or.inr ⟨rfl, le_of_eq (String.ext h2)⟩)
    · refine iff_of_false (by decide) ?_
      rintro (⟨-, hx⟩ | ⟨-, hle⟩)
      · exact absurd hx (by decide)
      · exact absurd hle (not_le.mpr (hba h1 h2))
  · exact iff_of_true rfl (Or.inl ⟨rfl, rfl⟩)
  · exact iff_of_false (show ¬(false = true) by decide)
      (by rintro (⟨hx, -⟩ | ⟨hx, -⟩) <;> exact absurd hx (by decide))
  · split_ifs with h1 h2
    · exact iff_of_true rfl (Or.inr ⟨rfl, le_of_lt (String.lt_iff_toList_lt.mpr h1)⟩)
    · exact iff_of_true rfl (Or.inr ⟨rfl, le_of_eq (String.ext h2)⟩)
    · refine iff_of_false (by decide) ?_
      rintro (⟨hx, -⟩ | ⟨-, hle⟩)
      · exact absurd hx (by decide)
      · exact absurd hle (not_le.mpr (hba h1 h2))

/-- `entry_le` is total. -/
theorem entry_le_total (a b : Entry) : entry_le a b = true ∨ entry_le b a = true := by
  rw [entry_le_iff, entry_le_iff]
  rcases Bool.eq_false_or_eq_true a.is_dir with ha | ha <;>
    rcases Bool.eq_false_or_eq_true b.is_dir with hb | hb <;>
    rcases le_total a.name_lower b.name_lower with hn | hn <;>
    simp [ha, hb, hn]

/-- `entry_le` is transitive. -/
theorem entry_le_trans (a b c : Entry) (hab : entry_le a b = true)
    (hbc : entry_le b c = true) : entry_le a c = true := by
  rw [entry_le_iff] at hab hbc ⊢
  rcases hab with ⟨ha, hb⟩ | ⟨hab, hn⟩
  · rcases hbc with ⟨hb', _⟩ | ⟨hbc, _⟩
    · rw [hb] at hb'
      exact absurd hb' (by simp)
    · exact Or.inl ⟨ha, hbc ▸ hb⟩
  · rcases hbc with ⟨hb', hc⟩ | ⟨hbc, hn'⟩
    · exact Or.inl ⟨hab ▸ hb', hc⟩
    · exact Or.inr ⟨hab.trans hbc, hn.trans hn'⟩

/-- Inserting preserves the multiset of entries. -/
theorem insert_entry_perm (x : Entry) (l : List Entry) :
    (insert_entry x l).Perm (x :: l) := by
  induction l with
  | nil => exact List.Perm.refl _
  | cons y ys ih =>
    unfold insert_entry
    split_ifs
    · exact List.Perm.refl _
    · exact (ih.cons y).trans (List.Perm.swap x y ys)

/-- The sort is a permutation of its input. -/
theorem sort_entries_perm (l : List Entry) : (sort_entries l).Perm l := by
  induction l with
  | nil => exact List.Perm.refl _
  | cons x xs ih => exact (insert_entry_perm x _).trans (ih.cons x)

/-- Inserting into an `entry_le`-ordered list keeps it ordered. -/
theorem insert_entry_pairwise (x : Entry) (l : List Entry)
    (hl : List.Pairwise (fun a b => entry_le a b = true) l) :
    List.Pairwise (fun a b => entry_le a b = true) (insert_entry x l) := by
  induction l with
  | nil => simp [insert_entry]
  | cons y ys ih =>
    rcases List.pairwise_cons.mp hl with ⟨hy, hys⟩
    unfold insert_entry
    split_ifs with h
    · refine List.Pairwise.cons ?_ hl
      intro z hz
      rcases List.mem_cons.mp hz with rfl | hz'
      · exact h
      · exact entry_le_trans x y z h (hy z hz')
    · refine List.Pairwise.cons ?_ (ih hys)
      intro z hz
      rcases List.mem_cons.mp ((insert_entry_perm x ys).mem_iff.mp hz) with rfl | hz'
      · rcases entry_le_total z y with h' | h'
        · exact absurd h' h
        · exact h'
      · exact hy z hz'

/-- The sort result is `entry_le`-ordered. -/
theorem sort_entries_pairwise (l : List Entry) :
    List.Pairwise (fun a b => entry_le a b = true) (sort_entries l) := by
  induction l with
  | nil => simp [sort_entries]
  | cons x xs ih => exact insert_entry_pairwise x _ ih

/-- C8: the scan sort is a permutation of its input in which every
directory precedes every file and, within each kind, the pre-lowercased
names appear in ascending order; the spec's example
`zebra.txt`, `alpha` (dir), `beta.txt` sorts to
`alpha`, `beta.txt`, `zebra.txt`. -/
theorem C8_sort_directories_first (l : List Entry) :
    (sort_entries l).Perm l ∧
    (∀ i j, i < j → ∀ hj : j < (sort_entries l).length,
      ((((sort_entries l).getD j (mkEntry "" false)).is_dir = true →
        ((sort_entries l).getD i (mkEntry "" false)).is_dir = true) ∧
       (((sort_entries l).getD i (mkEntry "" false)).is_dir =
          ((sort_entries l).getD j (mkEntry "" false)).is_dir →
        ((sort_entries l).getD i (mkEntry "" false)).name_lower ≤
          ((sort_entries l).getD j (mkEntry "" false)).name_lower))) ∧
    sort_entries c8Example =
      [mkEntry "alpha" true, mkEntry "beta.txt" false, mkEntry "zebra.txt" false] := by
  refine ⟨sort_entries_perm l, ?_, by decide⟩
  intro i j hij hj
  have hi : i < (sort_entries l).length := lt_trans hij hj
  have hpw := sort_entries_pairwise l
  have hle : entry_le ((sort_entries l).getD i (mkEntry "" false))
      ((sort_entries l).getD j (mkEntry "" false)) = true := by
    rw [List.getD_eq_getElem _ _ hi, List.getD_eq_getElem _ _ hj]
    exact List.pairwise_iff_getElem.mp hpw i j hi hj hij
  rw [entry_le_iff] at hle
  constructor
  · intro hjd
    rcases hle with ⟨hid, _⟩ | ⟨heq, _⟩
    · exact hid
    · rw [heq]
      exact hjd
  · intro heq
    rcases hle with ⟨hid, hjd⟩ | ⟨_, hn⟩
    · rw [hid, hjd] at heq
      exact absurd heq (by simp)
    · exact hn

/-- C8 witness: in the sorted example list, position 0 (the directory
`alpha`) relates correctly to position 1 (`beta.txt`). -/
theorem C8_sort_directories_first_witness :
    (((sort_entries c8Example).getD 1 (mkEntry "" false)).is_dir = true →
      ((sort_entries c8Example).getD 0 (mkEntry "" false)).is_dir = true) ∧
    (((sort_entries c8Example).getD 0 (mkEntry "" false)).is_dir =
        ((sort_entries c8Example).getD 1 (mkEntry "" false)).is_dir →
      ((sort_entries c8Example).getD 0 (mkEntry "" false)).name_lower ≤
        ((sort_entries c8Example).getD 1 (mkEntry "" false)).name_lower) :=
  (C8_sort_directories_first c8Example).2.1 0 1 (by decide) (by decide)

/-- C4: the claim that each language family has exactly the listed
comment starter is false: the `//` check in `highlight_line` is not
guarded by the extension, so `//` starts a comment in a Python file
too. On the Python line `a // b` the tokenizer emits a DarkGray comment
span `// b`, which does not start with Python's listed starter `#`. -/
theorem C4_comment_counterexample :
    highlight_line "a // b" (get_keywords "py") (get_types "py") "py" =
      [{ text := "a", style := SpanStyle.raw }, { text := " ", style := SpanStyle.raw },
       { text := "// b", style := SpanStyle.comment }] ∧
    ¬(∀ sp ∈ highlight_line "a // b" (get_keywords "py") (get_types "py") "py",
        sp.style = SpanStyle.comment → sp.text.toList.head? = some '#') := by
  constructor
  · decide
  · decide

/-- C4 (amended): outside a string, `//` starts a line comment for
every extension, and `#` does so exactly for the extensions
`py`/`sh`/`bash`/`yaml`/`yml`/`toml`; the comment flushes the pending
word and other text and consumes the whole remainder of the line as a
single comment span, ending the loop. For the other extensions `#` is
consumed as an ordinary non-word character. -/
theorem C4_line_comment_amended (keywords types : List String) (ext : String)
    (rest : List Char) (st : HLState) (hstr : st.inString = false) :
    (hl_go keywords types ext ('/' :: '/' :: rest) st =
      (hl_flush keywords types st).spans ++
        [{ text := String.mk ('/' :: '/' :: rest), style := SpanStyle.comment }]) ∧
    (hash_comment_exts.contains ext = true →
      hl_go keywords types ext ('#' :: rest) st =
        (hl_flush keywords types st).spans ++
          [{ text := String.mk ('#' :: rest), style := SpanStyle.comment }]) ∧
    (hash_comment_exts.contains ext = false →
      hl_go keywords types ext ('#' :: rest) st =
        hl_go keywords types ext rest
          { st with
            spans := st.spans ++
              (if st.word.isEmpty then []
               else [colorize_word (String.mk st.word) keywords types])
            word := []
            other := st.other ++ ['#'] }) := by
  refine ⟨?_, ?_, ?_⟩
  · simp only [hl_go]
    rw [if_pos (by simp [hstr])]
  · intro hext
    have hext' : ext ∈ hash_comment_exts := by simpa using hext
    simp only [hl_go]
    rw [if_neg (by simp), if_pos (by simp [hstr, hext'])]
  · intro hext
    have hext' : ext ∉ hash_comment_exts := by simpa using hext
    simp only [hl_go]
    rw [if_neg (by simp), if_neg (by simp [hext']),
      if_neg (by decide), if_neg (by simp [hstr]), if_neg (by decide)]

/-- C4 witness: the amended theorem at the initial state, for a Python
line whose remainder is `x`. -/
theorem C4_line_comment_amended_witness :
    (hl_go [] [] "py" ('/' :: '/' :: ['x']) hl_init =
      (hl_flush [] [] hl_init).spans ++
        [{ text := String.mk ('/' :: '/' :: ['x']), style := SpanStyle.comment }]) ∧
    (hash_comment_exts.contains "py" = true →
      hl_go [] [] "py" ('#' :: ['x']) hl_init =
        (hl_flush [] [] hl_init).spans ++
          [{ text := String.mk ('#' :: ['x']), style := SpanStyle.comment }]) ∧
    (hash_comment_exts.contains "py" = false →
      hl_go [] [] "py" ('#' :: ['x']) hl_init =
        hl_go [] [] "py" ['x']
          { hl_init with
            spans := hl_init.spans ++
              (if hl_init.word.isEmpty then []
               else [colorize_word (String.mk hl_init.word) [] []])
            word := []
            other := hl_init.other ++ ['#'] }) :=
  C4_line_comment_amended [] [] "py" ['x'] hl_init rfl

/-- The characters of a string built from a character list. -/
theorem mk_toList (cs : List Char) : (String.mk cs).toList = cs := rfl

/-- `colorize_word` never changes the text of the word. -/
theorem colorize_word_text (w : String) (k t : List String) :
    (colorize_word w k t).text = w := by
  unfold colorize_word
  split_ifs <;> rfl

/-- `spans_chars` distributes over append. -/
theorem spans_chars_append (a b : List Spn) :
    spans_chars (a ++ b) = spans_chars a ++ spans_chars b := by
  simp [spans_chars]

/-- `spans_chars` of a single span is its text. -/
theorem spans_chars_single (sp : Spn) :
    spans_chars [sp] = sp.text.toList := by
  simp [spans_chars]

/-- Flushing a pending word appends exactly its characters. -/
theorem spans_chars_word_flush (l : List Spn) (w : List Char) (k t : List String) :
    spans_chars (l ++ (if w.isEmpty then [] else [colorize_word (String.mk w) k t])) =
      spans_chars l ++ w := by
  cases w with
  | nil => simp [spans_chars]
  | cons c cs =>
    rw [List.isEmpty_cons, if_neg (by simp), spans_chars_append, spans_chars_single,
      colorize_word_text, mk_toList]

/-- Flushing pending plain text appends exactly its characters. -/
theorem spans_chars_raw_flush (l : List Spn) (o : List Char) (sty : SpanStyle) :
    spans_chars (l ++ (if o.isEmpty then [] else [{ text := String.mk o, style := sty }])) =
      spans_chars l ++ o := by
  cases o with
  | nil => simp [spans_chars]
  | cons c cs =>
    rw [List.isEmpty_cons, if_neg (by simp), spans_chars_append, spans_chars_single]
    rw [mk_toList]

/-- Variant of the word-flush lemma in the simp-normal form of the
emptiness test. -/
theorem spans_chars_word_flush_eq (l : List Spn) (w : List Char) (k t : List String) :
    spans_chars (l ++ (if w = [] then [] else [colorize_word (String.mk w) k t])) =
      spans_chars l ++ w := by
  cases w with
  | nil => simp [spans_chars]
  | cons c cs =>
    rw [if_neg (by simp), spans_chars_append, spans_chars_single, colorize_word_text, mk_toList]

/-- Variant of the raw-flush lemma in the simp-normal form of the
emptiness test. -/
theorem spans_chars_raw_flush_eq (l : List Spn) (o : List Char) (sty : SpanStyle) :
    spans_chars (l ++ (if o = [] then [] else [{ text := String.mk o, style := sty }])) =
      spans_chars l ++ o := by
  cases o with
  | nil => simp [spans_chars]
  | cons c cs =>
    rw [if_neg (by simp), spans_chars_append, spans_chars_single]
    rw [mk_toList]

/-- The pending word accumulator is empty after `hl_flush`, also after
switching the flushed state into string mode. -/
theorem hl_flush_word (k t : List String) (st : HLState) (c : Char) :
    ({ hl_flush k t st with
        inString := true, stringChar := c, other := [c] } : HLState).word = [] := rfl

/-- `hl_flush` emits exactly the pending word then the pending other
text. -/
theorem hl_flush_chars (k t : List String) (st : HLState) :
    spans_chars (hl_flush k t st).spans =
      spans_chars st.spans ++ st.word ++ st.other := by
  unfold hl_flush
  rw [spans_chars_raw_flush, spans_chars_word_flush]

/-- Loop invariant for the tokenizer: the characters of the emitted
spans together with the pending accumulators and the remaining input
reconstruct the whole line. Requires that the pending word is empty
while inside a string, and that at most one accumulator is non-empty. -/
theorem hl_go_chars (k t : List String) (ext : String) (cs : List Char) (st : HLState)
    (hws : st.inString = true → st.word = [])
    (hwo : st.word = [] ∨ st.other = []) :
    spans_chars (hl_go k t ext cs st) =
      spans_chars st.spans ++ st.word ++ st.other ++ cs := by
  induction cs generalizing st with
  | nil =>
    rcases Bool.eq_false_or_eq_true st.inString with hin | hin
    · have hw : st.word = [] := hws hin
      simp only [hl_go, hin, eq_self_iff_true, if_true]
      rw [spans_chars_raw_flush, spans_chars_word_flush]
      simp [hw]
    · simp only [hl_go, hin, Bool.false_eq_true, if_false]
      rw [spans_chars_raw_flush, spans_chars_word_flush]
      simp
  | cons c rest ih =>
    simp only [hl_go]
    by_cases h1 : (!st.inString) = true ∧ c = '/' ∧ rest.head? = some '/'
    · rw [if_pos h1, spans_chars_append, hl_flush_chars, spans_chars_single]
      simp [mk_toList, List.append_assoc]
    · rw [if_neg h1]
      by_cases h2 : (!st.inString) = true ∧ c = '#' ∧ hash_comment_exts.contains ext = true
      · rw [if_pos h2, spans_chars_append, hl_flush_chars, spans_chars_single]
        simp [mk_toList, List.append_assoc]
      · rw [if_neg h2]
        by_cases h3 : c = dquote ∨ c = squote
        · rw [if_pos h3]
          by_cases h4 : (!st.inString) = true
          · rw [if_pos h4]
            have hrec := ih
              { hl_flush k t st with inString := true, stringChar := c, other := [c] }
              (fun _ => hl_flush_word k t st c) (Or.inl (hl_flush_word k t st c))
            have hfw : (hl_flush k t st).word = [] := rfl
            rw [hrec]
            simp [hl_flush_chars, hfw, List.append_assoc]
          · rw [if_neg h4]
            have hin : st.inString = true := by simpa using h4
            have hw : st.word = [] := hws hin
            by_cases h5 : c = st.stringChar
            · rw [if_pos h5]
              rw [ih { st with
                  spans := st.spans ++
                    [{ text := String.mk (st.other ++ [c]), style := SpanStyle.strLit }]
                  other := []
                  inString := false } (fun h => by simp at h) (Or.inr rfl)]
              simp [spans_chars_append, spans_chars_single, mk_toList, hw, List.append_assoc]
            · rw [if_neg h5]
              rw [ih { st with other := st.other ++ [c] } (fun _ => hw) (Or.inl hw)]
              simp [List.append_assoc]
        · rw [if_neg h3]
          by_cases h6 : st.inString = true
          · rw [if_pos h6]
            have hw : st.word = [] := hws h6
            rw [ih { st with other := st.other ++ [c] } (fun _ => hw) (Or.inl hw)]
            simp [List.append_assoc]
          · rw [if_neg h6]
            have hnin : st.inString = false := by simpa using h6
            by_cases h7 : c.isAlphanum = true ∨ c = '_'
            · rw [if_pos h7]
              rw [ih { st with
                  spans := st.spans ++
                    (if st.other.isEmpty then []
                     else [{ text := String.mk st.other, style := SpanStyle.raw }])
                  other := []
                  word := st.word ++ [c] } (fun h => absurd h (by simp [hnin])) (Or.inr rfl)]
              rcases hwo with hw | ho
              · simp [spans_chars_raw_flush_eq, spans_chars_raw_flush, hw, List.append_assoc]
              · simp [spans_chars_raw_flush_eq, spans_chars_raw_flush, ho, List.append_assoc]
            · rw [if_neg h7]
              rw [ih { st with
                  spans := st.spans ++
                    (if st.word.isEmpty then []
                     else [colorize_word (String.mk st.word) k t])
                  word := []
                  other := st.other ++ [c] } (fun _ => rfl) (Or.inl rfl)]
              simp [spans_chars_word_flush_eq, spans_chars_word_flush, List.append_assoc]

/-- C9: the concatenation of the texts of the spans produced by
`highlight_line` is exactly the input line, for every line, keyword and
type set, and extension: the tokenizer neither drops, duplicates nor
reorders characters. -/
theorem C9_highlight_concat (line : String) (keywords types : List String) (ext : String) :
    spans_chars (highlight_line line keywords types ext) = line.toList := by
  unfold highlight_line
  rw [hl_go_chars keywords types ext line.toList hl_init (fun h => by simp [hl_init] at h)
    (Or.inl rfl)]
  simp [hl_init, spans_chars]

/-- C10: pasting while the clipboard's source path no longer exists
reports "Source no longer exists", leaves the filesystem untouched and
clears the clipboard, so that an immediately repeated paste reports
"Nothing to paste" and again changes nothing; and a paste from a copy
(non-cut) clipboard whose source still exists never clears the
clipboard, whatever else happens. -/
theorem C10_paste_stale_source (app : PasteState) (fs : FS) (clip : FileClipboard)
    (hclip : app.clipboard = some clip) :
    (fs_exists fs clip.path = false →
      (paste_file app fs).1.message = some "Source no longer exists" ∧
      (paste_file app fs).2 = fs ∧
      (paste_file app fs).1.clipboard = none ∧
      (paste_file (paste_file app fs).1 (paste_file app fs).2).1.message =
        some "Nothing to paste" ∧
      (paste_file (paste_file app fs).1 (paste_file app fs).2).2 = fs) ∧
    (clip.isCut = false → fs_exists fs clip.path = true →
      (paste_file app fs).1.clipboard = some clip) := by
  constructor
  · intro hex
    have h1 : paste_file app fs =
        ({ app with message := some "Source no longer exists", clipboard := none }, fs) := by
      simp only [paste_file, hclip]
      rw [if_pos (by simp [hex])]
    rw [h1]
    refine ⟨rfl, rfl, rfl, ?_, ?_⟩ <;> simp [paste_file]
  · intro hcut hex
    simp only [paste_file, hclip]
    rw [if_neg (by simp [hex])]
    rw [if_neg (by simp [hcut])]
    rcases hfn : path_file_name clip.path with _ | fname
    · simp [hclip]
    · simp only []
      split
      · simp [hclip]
      · split
        · simp [hclip, hcut]
        · simp [hclip]

/-- C10 witness: the stale-source branch on a concrete state (clipboard
holds a copy of `gone/x.txt`, filesystem empty). -/
theorem C10_paste_stale_source_witness :
    (paste_file c10App []).1.message = some "Source no longer exists" ∧
    (paste_file c10App []).1.clipboard = none ∧
    (paste_file (paste_file c10App []).1 (paste_file c10App []).2).1.message =
      some "Nothing to paste" := by
  have h := (C10_paste_stale_source c10App [] c10Clip rfl).1 rfl
  exact ⟨h.1, h.2.2.1, h.2.2.2.1⟩
